import Mathlib

/-!
Verification development for the Newton-CG outer driver
(`src/cpp/oneapi/dal/backend/primitives/optimizers/newton_cg_dpc.cpp`,
function `newton_cg`).

Modelling conventions:
* Device vectors (`ndview<Float, 1>`) are `List ℚ`; machine floating-point
  arithmetic is modelled by exact rational arithmetic.  `std::sqrt` is kept
  abstract (a function field `sqrtF` of the environment), since floating-point
  square roots carry no structure the claims depend on.
* The reduction/elementwise primitives `l1_norm`, `max_abs`, `dot_product`
  (external black boxes per the spec, with defined numeric contracts) are
  modelled by their exact mathematical contracts `l1normQ`, `maxAbsQ`, `dotQ`.
* `cg_solve` and `backtracking` live in headers that are not part of the shown
  slice; they are modelled as oracles.  Per the spec, `cg_solve` starts from the
  zero initial guess (so its result depends on the right-hand side and the
  tolerance, not on the previous buffer content) and returns the direction plus
  an inner-iteration count; `backtracking` returns a step length `alpha` and
  writes the accepted point `x + alpha * direction` into the scratch buffer.
* Every device operation issued by `newton_cg` is recorded in an explicit
  trace: an `Op` holds the operation kind, the buffers it reads, the buffers it
  writes, and the dependency list it was issued with (event handles are op
  indices into the trace; the external `deps` argument of `newton_cg` is
  modelled as the empty list).  The host-side `wait_and_throw` calls and the
  diagnostic `std::cout` printing are not operations on the modelled buffers
  and are not recorded.
* The outer `while (cur_iter_id < maxiter)` loop runs on fuel
  `maxiter.toNat`; the inner descent-direction retry loop runs on fuel 10,
  exactly the source bounds.
-/

attribute [local semireducible] Rat.add Rat.mul Rat.inv Rat.sub

namespace NewtonCG

/-- Contract of the external `l1_norm` reduction primitive: sum of absolute
values of the vector entries. -/
def l1normQ (xs : List ℚ) : ℚ := (xs.map (fun v => |v|)).sum

/-- Contract of the external `max_abs` reduction primitive: maximum absolute
value of the vector entries (0 for the empty vector). -/
def maxAbsQ (xs : List ℚ) : ℚ := xs.foldl (fun a v => max a |v|) 0

/-- Contract of the external `dot_product` reduction primitive. -/
def dotQ (xs ys : List ℚ) : ℚ := (List.zipWith (fun a b => a * b) xs ys).sum

/-- Pointwise `x + alpha * d`, the accepted line-search point (spec 4.3: the
accepted point is `x + step * direction`). -/
def axpyQ (alpha : ℚ) (x d : List ℚ) : List ℚ :=
  List.zipWith (fun xi di => xi + alpha * di) x d

/-- The binary kernel `kernel_minus` from the source: `[=](const Float val,
Float) -> Float { return -val; }` — negates its first argument and ignores the
second (the scalar parameter `Float(0)` of `element_wise`). -/
def kernel_minus (val : ℚ) (_ : ℚ) : ℚ := -val

/-- The device buffers touched by `newton_cg`: the iterate `x`, the
objective-owned gradient buffer, and the five slices of the scratch allocation
`buffer` (`buffer1..3`, `direction`, and the trailing scalar `tmp_gpu`). -/
inductive Buf
  | x | grad | dir | buf1 | buf2 | buf3 | tmp
deriving DecidableEq, Repr

/-- Kinds of operations issued by `newton_cg`, in source order of first
appearance. -/
inductive OpKind
  | updateX      -- `f.update_x(x, true, last_iter_deps)`
  | l1norm       -- `l1_norm(queue, gradient, tmp_gpu, &grad_norm, ...)`
  | maxabs       -- `max_abs(queue, gradient, tmp_gpu, &grad_max_abs, ...)`
  | negateGrad   -- `element_wise(queue, kernel_minus, gradient, 0, gradient, ...)`
  | fillDir      -- `fill(queue, direction, Float(0), ...)`
  | cgSolve      -- `cg_solve(queue, ..., gradient, direction, buffer1..3, ...)`
  | dotDesc      -- `dot_product(queue, gradient, direction, tmp_gpu, &desc, ...)`
  | lineSearch   -- `backtracking(queue, f, x, direction, buffer2, 1, 1e-4, true, ...)`
  | dotUN        -- `dot_product(queue, direction, direction, tmp_gpu, &update_norm, ...)`
  | copyCommit   -- `copy(queue, x, buffer2, {})`
deriving DecidableEq, Repr

/-- One issued device operation: its kind, the buffers it reads, the buffers
it writes, and the dependency list it was issued with (indices of earlier ops
in the trace, standing for their completion events). -/
structure Op where
  kind : OpKind
  reads : List Buf
  writes : List Buf
  deps : List Nat
deriving DecidableEq, Repr

/-- One attempt of the descent-direction retry loop: the `tol_k` passed to
`cg_solve`, the inner-iteration count it returned, and the `desc` scalar
computed from its direction. -/
structure Attempt where
  tolK : ℚ
  inner : Nat
  desc : ℚ
deriving DecidableEq, Repr

/-- Record of the line-search / commit phase of an outer iteration: the
`initial_step` and sufficient-decrease constant passed to `backtracking`, the
accepted step `alpha`, the direction used, the computed `update_norm`, and the
committed point. -/
structure LSInfo where
  step0 : ℚ
  cdec : ℚ
  alpha : ℚ
  dir : List ℚ
  updateNorm : ℚ
  xAfter : List ℚ
deriving DecidableEq, Repr

/-- Log of one outer iteration of `newton_cg`. -/
structure IterLog where
  iterId : Nat
  xBefore : List ℚ
  gradNorm : ℚ
  gradMaxAbs : ℚ
  converged : Bool
  attempts : List Attempt
  ls : Option LSInfo
  gradBufAfter : List ℚ
deriving DecidableEq, Repr

/-- How the solve call ended: the convergence `break`, the early `return`
inside the loop when no descent direction was found, or exhaustion of the
outer-iteration budget. -/
inductive ExitKind
  | converged | descentFailure | iterCap
deriving DecidableEq, Repr

/-- The environment of external collaborators of `newton_cg`:

* `grad`: the objective `f` — `update_x` recomputes the gradient from scratch
  at the given point and `get_gradient` returns the buffer holding it;
* `sqrtF`: abstract `std::sqrt`;
* `cg_solve`: oracle for the CG inner solver.  Modelled from the spec:
  `cg_solver.hpp` is not in the shown slice; per contract 4.2 it solves from
  the zero initial guess against the right-hand side (the negated-gradient
  buffer) with tolerance `tol_k` capped at `maxinner` iterations, writing the
  direction and returning the inner-iteration count;
* `backtracking`: oracle for the line search.  Modelled from the spec:
  `line_search.hpp` is not in the shown slice; per contract 4.3 it takes the
  point, the direction, the initial step and the sufficient-decrease constant
  and returns the accepted step length (the `linearize = true` flag of the
  source call is absorbed by the oracle). -/
structure Env where
  grad : List ℚ → List ℚ
  sqrtF : ℚ → ℚ
  cg_solve : List ℚ → ℚ → Int → List ℚ × Nat
  backtracking : List ℚ → List ℚ → ℚ → ℚ → ℚ

/-- Interpreter state between outer iterations: the iterate `x`, the content
of the objective's gradient buffer, the counters `cur_iter_id` and
`inner_iter_sum`, the op trace so far, the iteration logs, the event of the
last commit copy (the variable `last`, `none` standing for the
default-constructed `sycl::event`), and `last_iter_deps`. -/
structure St where
  x : List ℚ
  gradBuf : List ℚ
  curIterId : Nat
  innerSum : Nat
  trace : List Op
  logs : List IterLog
  lastCommit : Option Nat
  lastIterDeps : List Nat
deriving DecidableEq, Repr

/-- Result of the descent-direction retry loop. -/
structure DLoopRes where
  attempts : List Attempt
  dir : List ℚ
  desc : ℚ
  trace : List Op
  lastEv : Nat
deriving DecidableEq, Repr

/-- The descent-direction retry loop, mirroring

`while (desc < 0 && iter_num < 10) { if (iter_num > 0) tol_k /= 10; iter_num++;
cg_solve(...); inner_iter_sum += inner_iter; desc = dot_product(gradient,
direction, ...); }`

`fuel` is `10 - iter_num`; `gradB` is the content of the gradient buffer (the
negated gradient); `ev` is the current `last_event`.  Inner-iteration counts
are accumulated by the caller as the sum over the returned attempts. -/
def descentLoopAux (E : Env) (maxinner : Int) (gradB : List ℚ) :
    Nat → ℚ → Nat → ℚ → List ℚ → List Op → Nat → DLoopRes
  | 0, _, _, desc, dir, tr, ev => ⟨[], dir, desc, tr, ev⟩
  | fuel + 1, tolK, iterNum, desc, dir, tr, ev =>
    if desc < 0 then
      let tolK1 := if 0 < iterNum then tolK / 10 else tolK
      let cgr := E.cg_solve gradB tolK1 maxinner
      let iCg := tr.length
      let tr1 := tr ++ [⟨OpKind.cgSolve, [Buf.grad],
        [Buf.dir, Buf.buf1, Buf.buf2, Buf.buf3], [ev]⟩]
      let descN := dotQ gradB cgr.1
      let iDot := tr1.length
      let tr2 := tr1 ++ [⟨OpKind.dotDesc, [Buf.grad, Buf.dir], [Buf.tmp], [iCg]⟩]
      let r := descentLoopAux E maxinner gradB fuel tolK1 (iterNum + 1) descN cgr.1 tr2 iDot
      ⟨⟨tolK1, cgr.2, descN⟩ :: r.attempts, r.dir, r.desc, r.trace, r.lastEv⟩
    else ⟨[], dir, desc, tr, ev⟩

/-- Outcome of one pass of the outer loop body. -/
inductive StepRes
  | broke (st : St)                 -- the convergence `break`
  | failed (st : St) (ev : Nat)     -- the `return` when `desc < 0` persists
  | stepped (st : St)               -- fell through to the next iteration
deriving Repr

/-- Ops issued by an outer iteration up to the convergence check:
`f.update_x` (dependencies `last_iter_deps`), then `l1_norm` and `max_abs` of
the gradient buffer (each depending on the update event and writing their
scalar through the `tmp_gpu` slot). -/
def preTrace (st : St) : List Op :=
  st.trace ++ [⟨OpKind.updateX, [Buf.x], [Buf.grad], st.lastIterDeps⟩] ++
    [⟨OpKind.l1norm, [Buf.grad], [Buf.tmp], [st.trace.length]⟩] ++
    [⟨OpKind.maxabs, [Buf.grad], [Buf.tmp], [st.trace.length]⟩]

/-- Ops issued by a non-converged iteration before the retry loop: the
in-place gradient negation (`element_wise` with `kernel_minus`, depending on
the update event) and the `fill` of `direction` with 0 (depending on the
negation event). -/
def loopTrace (st : St) : List Op :=
  preTrace st ++ [⟨OpKind.negateGrad, [Buf.grad], [Buf.grad], [st.trace.length]⟩] ++
    [⟨OpKind.fillDir, [], [Buf.dir], [(preTrace st).length]⟩]

/-- The descent-direction retry loop as invoked by `newton_cg`: on the negated
gradient buffer, with fresh tolerance `tol_k = min(sqrt(grad_norm), 0.5)`,
`iter_num = 0`, `desc = -1`, the zero-filled direction, and the `fill` event
as the pending `last_event`. -/
def runLoop (E : Env) (mi : Int) (st : St) : DLoopRes :=
  descentLoopAux E mi ((E.grad st.x).map (fun v => kernel_minus v 0)) 10
    (min (E.sqrtF (l1normQ (E.grad st.x))) (1 / 2)) 0 (-1)
    (List.replicate st.x.length 0) (loopTrace st) ((preTrace st).length + 1)

/-- Log of an outer iteration that passed the convergence check and broke out
of the loop. -/
def brokeLog (E : Env) (st : St) : IterLog :=
  ⟨st.curIterId + 1, st.x, l1normQ (E.grad st.x), maxAbsQ (E.grad st.x),
    true, [], none, E.grad st.x⟩

/-- State after the convergence `break`: the iterate and counters are
unchanged except that `cur_iter_id` was already incremented; the gradient
buffer holds the freshly recomputed (un-negated) gradient. -/
def brokeSt (E : Env) (st : St) : St :=
  ⟨st.x, E.grad st.x, st.curIterId + 1, st.innerSum, preTrace st,
    st.logs ++ [brokeLog E st], st.lastCommit, st.lastIterDeps⟩

/-- State at the `return make_tuple(last_event, cur_iter_id, inner_iter_sum)`
executed when the retry loop ends with `desc < 0`: the iterate is untouched,
the gradient buffer still holds the negated gradient, and the inner-iteration
counts of all failed attempts are accumulated. -/
def failedLog (E : Env) (mi : Int) (st : St) : IterLog :=
  ⟨st.curIterId + 1, st.x, l1normQ (E.grad st.x), maxAbsQ (E.grad st.x),
    false, (runLoop E mi st).attempts, none,
    (E.grad st.x).map (fun v => kernel_minus v 0)⟩

def failedSt (E : Env) (mi : Int) (st : St) : St :=
  ⟨st.x, (E.grad st.x).map (fun v => kernel_minus v 0), st.curIterId + 1,
    st.innerSum + ((runLoop E mi st).attempts.map (fun a => a.inner)).sum,
    (runLoop E mi st).trace,
    st.logs ++ [failedLog E mi st], st.lastCommit, st.lastIterDeps⟩

/-- Ops issued by an accepted iteration after the retry loop: `backtracking`
(writing the accepted point into `buffer2`, issued with `{ last_event }`) and
the `dot_product(direction, direction)` for the update norm (also issued with
`{ last_event }`, which still names the last descent dot product). -/
def postTrace (E : Env) (mi : Int) (st : St) : List Op :=
  (runLoop E mi st).trace ++
    [⟨OpKind.lineSearch, [Buf.x, Buf.dir], [Buf.buf2], [(runLoop E mi st).lastEv]⟩] ++
    [⟨OpKind.dotUN, [Buf.dir], [Buf.tmp], [(runLoop E mi st).lastEv]⟩]

/-- State after an accepted outer iteration: the line search runs with initial
step 1 and sufficient-decrease constant `1e-4`, `update_norm` is
`sqrt(<direction, direction>) * alpha`, and the commit
`copy(queue, x, buffer2, {})` — issued with an empty dependency list — writes
the accepted point into the iterate and becomes `last` / `last_iter_deps`. -/
def steppedLog (E : Env) (mi : Int) (st : St) : IterLog :=
  ⟨st.curIterId + 1, st.x, l1normQ (E.grad st.x), maxAbsQ (E.grad st.x),
    false, (runLoop E mi st).attempts,
    some ⟨1, 1 / 10000, E.backtracking st.x (runLoop E mi st).dir 1 (1 / 10000),
      (runLoop E mi st).dir,
      E.sqrtF (dotQ (runLoop E mi st).dir (runLoop E mi st).dir) *
        E.backtracking st.x (runLoop E mi st).dir 1 (1 / 10000),
      axpyQ (E.backtracking st.x (runLoop E mi st).dir 1 (1 / 10000)) st.x
        (runLoop E mi st).dir⟩,
    (E.grad st.x).map (fun v => kernel_minus v 0)⟩

def steppedSt (E : Env) (mi : Int) (st : St) : St :=
  ⟨axpyQ (E.backtracking st.x (runLoop E mi st).dir 1 (1 / 10000)) st.x (runLoop E mi st).dir,
    (E.grad st.x).map (fun v => kernel_minus v 0), st.curIterId + 1,
    st.innerSum + ((runLoop E mi st).attempts.map (fun a => a.inner)).sum,
    postTrace E mi st ++ [⟨OpKind.copyCommit, [Buf.buf2], [Buf.x], []⟩],
    st.logs ++ [steppedLog E mi st],
    some (postTrace E mi st).length, [(postTrace E mi st).length]⟩

/-- One pass of the body of `while (cur_iter_id < maxiter)` in `newton_cg`,
translated statement by statement from the source (the diagnostic `std::cout`
printing of iteration number, gradient norms and loss is omitted: it touches
no modelled buffer). -/
def outerStep (E : Env) (tol : ℚ) (mi : Int) (st : St) : StepRes :=
  if maxAbsQ (E.grad st.x) < tol then StepRes.broke (brokeSt E st)
  else if (runLoop E mi st).desc < 0 then
    StepRes.failed (failedSt E mi st) (runLoop E mi st).lastEv
  else StepRes.stepped (steppedSt E mi st)

/-- The outer loop of `newton_cg` on fuel `maxiter.toNat - cur_iter_id`.
Returns the final state, the exit kind, and the returned event (`last` at the
normal exits, the last `dot_product` event at the descent-failure return). -/
def newtonLoop (E : Env) (tol : ℚ) (maxinner : Int) :
    Nat → St → St × ExitKind × Option Nat
  | 0, st => (st, ExitKind.iterCap, st.lastCommit)
  | fuel + 1, st =>
    match outerStep E tol maxinner st with
    | StepRes.broke st1 => (st1, ExitKind.converged, st1.lastCommit)
    | StepRes.failed st1 ev => (st1, ExitKind.descentFailure, some ev)
    | StepRes.stepped st1 => newtonLoop E tol maxinner fuel st1

/-- Result of a `newton_cg` call: the returned completion event, the returned
`cur_iter_id` and `inner_iter_sum`, the final content of the iterate buffer
`x` and of the objective's gradient buffer, the full op trace, the iteration
logs, and the exit kind. -/
structure NCGRes where
  retEvent : Option Nat
  outerIters : Nat
  innerIters : Nat
  x : List ℚ
  gradBuf : List ℚ
  trace : List Op
  logs : List IterLog
  exit : ExitKind
deriving DecidableEq, Repr

/-- Shallow embedding of the driver `newton_cg(queue, f, x, tol, maxiter,
maxinner, deps)`.  `g0` is the content of the objective's gradient buffer on
entry (the buffer is owned by the objective and its prior content is
arbitrary); the external `deps` argument is modelled as the empty dependency
list. -/
def newton_cg (E : Env) (x0 g0 : List ℚ) (tol : ℚ) (maxiter maxinner : Int) : NCGRes :=
  let st0 : St := ⟨x0, g0, 0, 0, [], [], none, []⟩
  let out := newtonLoop E tol maxinner maxiter.toNat st0
  ⟨out.2.2, out.1.curIterId, out.1.innerSum, out.1.x, out.1.gradBuf,
    out.1.trace, out.1.logs, out.2.1⟩

/-- The point held by the iterate buffer after a sequence of iterations: the
committed point of the last iteration that ran the commit copy, or the initial
point if no iteration committed. -/
def lastCommittedX (x0 : List ℚ) (logs : List IterLog) : List ℚ :=
  logs.foldl (fun acc l => match l.ls with | some c => c.xAfter | none => acc) x0

/-- Inner iterations spent by one outer iteration, summed over its CG
attempts. -/
def attemptInners (l : IterLog) : Nat := (l.attempts.map (fun a => a.inner)).sum

/-- Total inner iterations over a sequence of iteration logs. -/
def innerTotal (logs : List IterLog) : Nat := (logs.map attemptInners).sum

theorem innerTotal_concat (logs : List IterLog) (l : IterLog) :
    innerTotal (logs ++ [l]) = innerTotal logs + attemptInners l := by
  simp [innerTotal]

theorem lastCommittedX_concat (x0 : List ℚ) (logs : List IterLog) (l : IterLog) :
    lastCommittedX x0 (logs ++ [l]) =
      match l.ls with
      | some c => c.xAfter
      | none => lastCommittedX x0 logs := by
  simp [lastCommittedX]


/-- Shape of the attempt list produced by the retry loop: the first attempt
uses tolerance `t0` and every later attempt divides the previous tolerance by
10; every attempt that is followed by another one observed `desc < 0`. -/
def chainFrom (t0 : ℚ) : List Attempt → Prop
  | [] => True
  | a :: rest => a.tolK = t0 ∧ (rest ≠ [] → a.desc < 0) ∧ chainFrom (t0 / 10) rest

/-- Combined specification of the retry loop result `r` for an entry state
with first-attempt tolerance `t0`, entry descent scalar `desc0`, entry trace
`tr` and remaining budget `fuel`. -/
structure DLSpec (t0 desc0 : ℚ) (tr : List Op) (fuel : Nat) (r : DLoopRes) : Prop where
  nilIff : r.attempts = [] ↔ (¬ desc0 < 0 ∨ fuel = 0)
  len : r.attempts.length ≤ fuel
  chain : chainFrom t0 r.attempts
  lastDesc : r.desc = (match r.attempts.getLast? with | some a => a.desc | none => desc0)
  full : r.desc < 0 → r.attempts.length = fuel
  allNeg : r.desc < 0 → ∀ a ∈ r.attempts, a.desc < 0
  traceExt : ∃ ext, r.trace = tr ++ ext ∧ ∀ op ∈ ext,
    (op.kind = OpKind.cgSolve ∧ op.writes = [Buf.dir, Buf.buf1, Buf.buf2, Buf.buf3]) ∨
    (op.kind = OpKind.dotDesc ∧ op.writes = [Buf.tmp])

theorem DLSpec.stop {t0 desc0 : ℚ} {tr : List Op} {fuel : Nat} {dir : List ℚ} {ev : Nat}
    (h : ¬ desc0 < 0 ∨ fuel = 0) :
    DLSpec t0 desc0 tr fuel ⟨[], dir, desc0, tr, ev⟩ := by
  refine ⟨iff_of_true rfl h, by simp, trivial, rfl, ?_, by simp, ⟨[], by simp, by simp⟩⟩
  intro hlt
  rcases h with h | h
  · exact absurd hlt h
  · simp [h]

theorem DLSpec.cons {t0 desc0 descN : ℚ} {tr : List Op} {n : Nat} {r' : DLoopRes}
    {inner : Nat} {tN : ℚ} {cgop dotop : Op}
    (h0 : desc0 < 0)
    (hsp : DLSpec tN descN (tr ++ [cgop] ++ [dotop]) n r')
    (htN : tN = t0 / 10)
    (hcg : cgop.kind = OpKind.cgSolve ∧ cgop.writes = [Buf.dir, Buf.buf1, Buf.buf2, Buf.buf3])
    (hdot : dotop.kind = OpKind.dotDesc ∧ dotop.writes = [Buf.tmp]) :
    DLSpec t0 desc0 tr (n + 1)
      ⟨⟨t0, inner, descN⟩ :: r'.attempts, r'.dir, r'.desc, r'.trace, r'.lastEv⟩ := by
  subst htN
  have hdN : ¬ descN < 0 → r'.attempts = [] := fun hge => hsp.nilIff.mpr (Or.inl hge)
  refine ⟨?_, ?_, ?_, ?_, ?_, ?_, ?_⟩
  · simp [h0]
  · simpa using Nat.succ_le_succ hsp.len
  · refine ⟨rfl, ?_, hsp.chain⟩
    intro hne
    by_contra hge
    exact hne (hdN hge)
  · rw [hsp.lastDesc]
    rcases hA : r'.attempts with _ | ⟨b, bs⟩
    · simp
    · simp only [List.getLast?_cons_cons]
      cases hgl : (b :: bs).getLast? with
      | none => simp at hgl
      | some a => rfl
  · intro hlt
    simpa using hsp.full hlt
  · intro hlt a ha
    have hdesc : descN < 0 := by
      by_contra hge
      have hnil := hdN hge
      have := hsp.lastDesc
      rw [hnil] at this
      simp at this
      rw [this] at hlt
      exact hge hlt
    rcases List.mem_cons.mp ha with rfl | hmem
    · exact hdesc
    · exact hsp.allNeg hlt a hmem
  · obtain ⟨ext, hext, hall⟩ := hsp.traceExt
    refine ⟨cgop :: dotop :: ext, by rw [hext]; simp, ?_⟩
    intro op hop
    rcases List.mem_cons.mp hop with rfl | hop
    · exact Or.inl hcg
    rcases List.mem_cons.mp hop with rfl | hop
    · exact Or.inr hdot
    · exact hall op hop

theorem dl_spec (E : Env) (mi : Int) (g : List ℚ) :
    ∀ (fuel : Nat) (tolK : ℚ) (iterNum : Nat) (desc : ℚ) (dir : List ℚ)
      (tr : List Op) (ev : Nat),
      DLSpec (if 0 < iterNum then tolK / 10 else tolK) desc tr fuel
        (descentLoopAux E mi g fuel tolK iterNum desc dir tr ev) := by
  intro fuel
  induction fuel with
  | zero =>
    intro tolK iterNum desc dir tr ev
    simp only [descentLoopAux]
    exact DLSpec.stop (Or.inr rfl)
  | succ n ih =>
    intro tolK iterNum desc dir tr ev
    by_cases h : desc < 0
    · simp only [descentLoopAux, if_pos h]
      exact DLSpec.cons h (ih _ _ _ _ _ _) (by simp) ⟨rfl, rfl⟩ ⟨rfl, rfl⟩
    · simp only [descentLoopAux, if_neg h]
      exact DLSpec.stop (Or.inl h)

theorem chainFrom_head (t0 : ℚ) (l : List Attempt) (h : chainFrom t0 l)
    (a : Attempt) (ha : l.head? = some a) : a.tolK = t0 := by
  cases l with
  | nil => simp at ha
  | cons b bs =>
    simp only [List.head?_cons, Option.some.injEq] at ha
    subst ha
    exact h.1

theorem chainFrom_consec (t0 : ℚ) (l : List Attempt) (h : chainFrom t0 l) :
    ∀ (i : Nat) (a b : Attempt), l[i]? = some a → l[i + 1]? = some b →
      b.tolK = a.tolK / 10 ∧ a.desc < 0 := by
  induction l generalizing t0 with
  | nil => intro i a b ha hb; simp at ha
  | cons hd tl ih =>
    intro i a b ha hb
    obtain ⟨h1, h2, h3⟩ := h
    cases i with
    | zero =>
      simp only [List.getElem?_cons_zero, Option.some.injEq] at ha
      simp only [List.getElem?_cons_succ] at hb
      subst ha
      have htl : tl ≠ [] := by
        intro hnil
        rw [hnil] at hb
        simp at hb
      refine ⟨?_, h2 htl⟩
      have hbh : tl.head? = some b := by
        rw [List.head?_eq_getElem?]
        exact hb
      rw [chainFrom_head (t0 / 10) tl h3 b hbh, h1]
    | succ j =>
      simp only [List.getElem?_cons_succ] at ha hb
      exact ih (t0 / 10) h3 j a b ha hb

theorem chainFrom_nonneg (t0 : ℚ) (l : List Attempt) (h : chainFrom t0 l)
    (h0 : 0 ≤ t0) : ∀ a ∈ l, 0 ≤ a.tolK := by
  induction l generalizing t0 with
  | nil => intro a ha; simp at ha
  | cons hd tl ih =>
    intro a ha
    obtain ⟨h1, _, h3⟩ := h
    rcases List.mem_cons.mp ha with rfl | hmem
    · rw [h1]; exact h0
    · exact ih (t0 / 10) h3 (by positivity) a hmem

theorem runLoop_spec (E : Env) (mi : Int) (st : St) :
    DLSpec (min (E.sqrtF (l1normQ (E.grad st.x))) (1 / 2)) (-1) (loopTrace st) 10
      (runLoop E mi st) := by
  have h := dl_spec E mi ((E.grad st.x).map (fun v => kernel_minus v 0)) 10
    (min (E.sqrtF (l1normQ (E.grad st.x))) (1 / 2)) 0 (-1)
    (List.replicate st.x.length 0) (loopTrace st) ((preTrace st).length + 1)
  simpa [runLoop] using h

/-- Everything an iteration log of `newton_cg` satisfies, independent of its
position in the run. -/
structure GoodLog (E : Env) (tol : ℚ) (l : IterLog) : Prop where
  gnorm : l.gradNorm = l1normQ (E.grad l.xBefore)
  gmax : l.gradMaxAbs = maxAbsQ (E.grad l.xBefore)
  conv : l.converged = decide (l.gradMaxAbs < tol)
  convAtt : l.converged = true → l.attempts = [] ∧ l.ls = none
  convGrad : l.converged = true → l.gradBufAfter = E.grad l.xBefore
  negGrad : l.converged = false →
    l.gradBufAfter = (E.grad l.xBefore).map (fun v => kernel_minus v 0)
  attNe : l.converged = false → l.attempts ≠ []
  attLen : l.attempts.length ≤ 10
  attChain : chainFrom (min (E.sqrtF l.gradNorm) (1 / 2)) l.attempts
  lsGate : ∀ a, l.attempts.getLast? = some a → (l.ls.isSome = true ↔ 0 ≤ a.desc)
  failFull : l.converged = false → l.ls = none →
    l.attempts.length = 10 ∧ ∀ a ∈ l.attempts, a.desc < 0
  lsSpec : ∀ c, l.ls = some c → c.step0 = 1 ∧ c.cdec = 1 / 10000 ∧
    c.updateNorm = E.sqrtF (dotQ c.dir c.dir) * c.alpha ∧
    c.xAfter = axpyQ c.alpha l.xBefore c.dir

theorem goodLog_broke (E : Env) (tol : ℚ) (st : St) (h : maxAbsQ (E.grad st.x) < tol) :
    GoodLog E tol (brokeLog E st) := by
  refine ⟨rfl, rfl, (decide_eq_true h).symm, fun _ => ⟨rfl, rfl⟩, fun _ => rfl,
    ?_, ?_, by simp [brokeLog], trivial, ?_, ?_, ?_⟩
  · intro hfalse; simp [brokeLog] at hfalse
  · intro hfalse; simp [brokeLog] at hfalse
  · intro a ha; simp [brokeLog] at ha
  · intro hfalse; simp [brokeLog] at hfalse
  · intro c hc; simp [brokeLog] at hc

theorem goodLog_failed (E : Env) (mi : Int) (tol : ℚ) (st : St)
    (h : ¬ maxAbsQ (E.grad st.x) < tol) (hd : (runLoop E mi st).desc < 0) :
    GoodLog E tol (failedLog E mi st) := by
  have hsp := runLoop_spec E mi st
  refine ⟨rfl, rfl, (decide_eq_false h).symm, ?_, ?_, fun _ => rfl, ?_, hsp.len,
    hsp.chain, ?_, ?_, ?_⟩
  · intro htrue; simp [failedLog] at htrue
  · intro htrue; simp [failedLog] at htrue
  · intro _ hnil
    have := hsp.nilIff.mp (by simpa [failedLog] using hnil)
    norm_num at this
  · intro a ha
    have hlast : (runLoop E mi st).desc = a.desc := by
      have hld := hsp.lastDesc
      rw [show (runLoop E mi st).attempts.getLast? = some a from ha] at hld
      exact hld
    refine iff_of_false (by simp [failedLog]) (not_le.mpr ?_)
    rw [← hlast]
    exact hd
  · intro _ _
    exact ⟨hsp.full hd, hsp.allNeg hd⟩
  · intro c hc; simp [failedLog] at hc

theorem goodLog_stepped (E : Env) (mi : Int) (tol : ℚ) (st : St)
    (h : ¬ maxAbsQ (E.grad st.x) < tol) (hd : ¬ (runLoop E mi st).desc < 0) :
    GoodLog E tol (steppedLog E mi st) := by
  have hsp := runLoop_spec E mi st
  refine ⟨rfl, rfl, (decide_eq_false h).symm, ?_, ?_, fun _ => rfl, ?_, hsp.len,
    hsp.chain, ?_, ?_, ?_⟩
  · intro htrue; simp [steppedLog] at htrue
  · intro htrue; simp [steppedLog] at htrue
  · intro _ hnil
    have := hsp.nilIff.mp (by simpa [steppedLog] using hnil)
    norm_num at this
  · intro a ha
    have hlast : (runLoop E mi st).desc = a.desc := by
      have hld := hsp.lastDesc
      rw [show (runLoop E mi st).attempts.getLast? = some a from ha] at hld
      exact hld
    refine iff_of_true (by simp [steppedLog]) (not_lt.mp ?_)
    rw [← hlast]
    exact hd
  · intro _ hnone; simp [steppedLog] at hnone
  · intro c hc
    simp only [steppedLog, Option.some.injEq] at hc
    subst hc
    exact ⟨rfl, rfl, rfl, rfl⟩

/-- Invariant of the interpreter state that holds on entry to every pass of
the outer loop and at every exit. -/
structure BaseInv (E : Env) (tol : ℚ) (x0 : List ℚ) (st : St) : Prop where
  iters : st.curIterId = st.logs.length
  inner : st.innerSum = innerTotal st.logs
  xeq : st.x = lastCommittedX x0 st.logs
  good : ∀ l ∈ st.logs, GoodLog E tol l
  ids : ∀ (i : Nat) (l : IterLog), st.logs[i]? = some l → l.iterId = i + 1
  trX : ∀ op ∈ st.trace, Buf.x ∈ op.writes → op.kind = OpKind.copyCommit

/-- What holds of the final state, exit kind and returned event of the outer
loop. -/
structure FinalSpec (E : Env) (tol : ℚ) (x0 : List ℚ)
    (out : St × ExitKind × Option Nat) : Prop where
  base : BaseInv E tol x0 out.1
  dropComm : ∀ l ∈ out.1.logs.dropLast, l.ls.isSome = true
  convIff : out.2.1 = ExitKind.converged ↔
    ∃ l, out.1.logs.getLast? = some l ∧ l.converged = true
  failIff : out.2.1 = ExitKind.descentFailure ↔
    ∃ l, out.1.logs.getLast? = some l ∧ l.converged = false ∧ l.ls = none
  failState : out.2.1 = ExitKind.descentFailure →
    ∃ l, out.1.logs.getLast? = some l ∧ out.1.x = l.xBefore ∧
      out.1.gradBuf = (E.grad l.xBefore).map (fun v => kernel_minus v 0) ∧
      out.1.curIterId = l.iterId

theorem trX_preTrace (st : St)
    (h : ∀ op ∈ st.trace, Buf.x ∈ op.writes → op.kind = OpKind.copyCommit) :
    ∀ op ∈ preTrace st, Buf.x ∈ op.writes → op.kind = OpKind.copyCommit := by
  intro op hop
  simp only [preTrace, List.mem_append, List.mem_singleton] at hop
  rcases hop with ((hop | rfl) | rfl) | rfl
  · exact h op hop
  · intro hx; simp at hx
  · intro hx; simp at hx
  · intro hx; simp at hx

theorem trX_runLoop (E : Env) (mi : Int) (st : St)
    (h : ∀ op ∈ st.trace, Buf.x ∈ op.writes → op.kind = OpKind.copyCommit) :
    ∀ op ∈ (runLoop E mi st).trace, Buf.x ∈ op.writes → op.kind = OpKind.copyCommit := by
  have hlp : ∀ op ∈ loopTrace st, Buf.x ∈ op.writes → op.kind = OpKind.copyCommit := by
    intro op hop
    simp only [loopTrace, List.mem_append, List.mem_singleton] at hop
    rcases hop with (hop | rfl) | rfl
    · exact trX_preTrace st h op hop
    · intro hx; simp at hx
    · intro hx; simp at hx
  obtain ⟨ext, hext, hall⟩ := (runLoop_spec E mi st).traceExt
  rw [hext]
  intro op hop
  rcases List.mem_append.mp hop with hop | hop
  · exact hlp op hop
  · rcases hall op hop with ⟨_, hw⟩ | ⟨_, hw⟩ <;> · rw [hw]; intro hx; simp at hx

theorem trX_stepped (E : Env) (mi : Int) (st : St)
    (h : ∀ op ∈ st.trace, Buf.x ∈ op.writes → op.kind = OpKind.copyCommit) :
    ∀ op ∈ (steppedSt E mi st).trace, Buf.x ∈ op.writes → op.kind = OpKind.copyCommit := by
  intro op hop
  simp only [steppedSt, postTrace, List.mem_append, List.mem_singleton] at hop
  rcases hop with (((hop | rfl) | rfl) | rfl)
  · exact trX_runLoop E mi st h op hop
  · intro hx; simp at hx
  · intro hx; simp at hx
  · intro hx; exact rfl

theorem ids_concat (st : St) (l : IterLog)
    (hids : ∀ (i : Nat) (l' : IterLog), st.logs[i]? = some l' → l'.iterId = i + 1)
    (hl : l.iterId = st.logs.length + 1) :
    ∀ (i : Nat) (l' : IterLog), (st.logs ++ [l])[i]? = some l' → l'.iterId = i + 1 := by
  intro i l' hi
  by_cases hlt : i < st.logs.length
  · rw [List.getElem?_append_left hlt] at hi
    exact hids i l' hi
  · rw [List.getElem?_append_right (le_of_not_lt hlt)] at hi
    rcases Nat.lt_or_ge (i - st.logs.length) 1 with hz | hz
    · have hz0 : i - st.logs.length = 0 := by omega
      rw [hz0] at hi
      simp only [List.getElem?_cons_zero, Option.some.injEq] at hi
      subst hi
      have : i = st.logs.length := by omega
      rw [hl, this]
    · rw [List.getElem?_eq_none (by simpa using hz)] at hi
      simp at hi

theorem GoodLog.notConv {E : Env} {tol : ℚ} {l : IterLog} (g : GoodLog E tol l)
    (h : l.ls.isSome = true) : l.converged = false := by
  cases hc : l.converged
  · rfl
  · have hnone := (g.convAtt hc).2
    rw [hnone] at h
    simp at h

theorem baseInv_broke {E : Env} {tol : ℚ} {x0 : List ℚ} {st : St}
    (hb : BaseInv E tol x0 st) (h : maxAbsQ (E.grad st.x) < tol) :
    BaseInv E tol x0 (brokeSt E st) := by
  refine ⟨?_, ?_, ?_, ?_, ?_, ?_⟩
  · simp [brokeSt, hb.iters]
  · simp [brokeSt, brokeLog, innerTotal_concat, attemptInners, hb.inner]
  · simp [brokeSt, brokeLog, lastCommittedX_concat, hb.xeq]
  · intro l hl
    simp only [brokeSt, List.mem_append, List.mem_singleton] at hl
    rcases hl with hl | rfl
    · exact hb.good l hl
    · exact goodLog_broke E tol st h
  · exact ids_concat st _ hb.ids (by simp [brokeLog, hb.iters])
  · exact trX_preTrace st hb.trX

theorem baseInv_failed {E : Env} {tol : ℚ} {x0 : List ℚ} {mi : Int} {st : St}
    (hb : BaseInv E tol x0 st) (h : ¬ maxAbsQ (E.grad st.x) < tol)
    (hd : (runLoop E mi st).desc < 0) :
    BaseInv E tol x0 (failedSt E mi st) := by
  refine ⟨?_, ?_, ?_, ?_, ?_, ?_⟩
  · simp [failedSt, hb.iters]
  · simp [failedSt, failedLog, innerTotal_concat, attemptInners, hb.inner]
  · simp [failedSt, failedLog, lastCommittedX_concat, hb.xeq]
  · intro l hl
    simp only [failedSt, List.mem_append, List.mem_singleton] at hl
    rcases hl with hl | rfl
    · exact hb.good l hl
    · exact goodLog_failed E mi tol st h hd
  · exact ids_concat st _ hb.ids (by simp [failedLog, hb.iters])
  · exact trX_runLoop E mi st hb.trX

theorem baseInv_stepped {E : Env} {tol : ℚ} {x0 : List ℚ} {mi : Int} {st : St}
    (hb : BaseInv E tol x0 st) (h : ¬ maxAbsQ (E.grad st.x) < tol)
    (hd : ¬ (runLoop E mi st).desc < 0) :
    BaseInv E tol x0 (steppedSt E mi st) := by
  refine ⟨?_, ?_, ?_, ?_, ?_, ?_⟩
  · simp [steppedSt, hb.iters]
  · simp [steppedSt, steppedLog, innerTotal_concat, attemptInners, hb.inner]
  · simp [steppedSt, steppedLog, lastCommittedX_concat]
  · intro l hl
    simp only [steppedSt, List.mem_append, List.mem_singleton] at hl
    rcases hl with hl | rfl
    · exact hb.good l hl
    · exact goodLog_stepped E mi tol st h hd
  · exact ids_concat st _ hb.ids (by simp [steppedLog, hb.iters])
  · exact trX_stepped E mi st hb.trX

theorem finalSpec_cap {E : Env} {tol : ℚ} {x0 : List ℚ} {st : St}
    (hb : BaseInv E tol x0 st) (hcomm : ∀ l ∈ st.logs, l.ls.isSome = true) :
    FinalSpec E tol x0 (st, ExitKind.iterCap, st.lastCommit) := by
  refine ⟨hb, ?_, ?_, ?_, ?_⟩
  · intro l hl
    exact hcomm l (List.dropLast_subset st.logs hl)
  · refine iff_of_false (by simp) ?_
    rintro ⟨l, hl, hc⟩
    have hm := hcomm l (List.mem_of_mem_getLast? hl)
    have := (hb.good l (List.mem_of_mem_getLast? hl)).notConv hm
    rw [this] at hc
    exact absurd hc (by simp)
  · refine iff_of_false (by simp) ?_
    rintro ⟨l, hl, _, hnone⟩
    have hm := hcomm l (List.mem_of_mem_getLast? hl)
    rw [hnone] at hm
    simp at hm
  · intro hfail; simp at hfail

theorem finalSpec_broke {E : Env} {tol : ℚ} {x0 : List ℚ} {st : St}
    (hb : BaseInv E tol x0 st) (hcomm : ∀ l ∈ st.logs, l.ls.isSome = true)
    (h : maxAbsQ (E.grad st.x) < tol) :
    FinalSpec E tol x0 (brokeSt E st, ExitKind.converged, (brokeSt E st).lastCommit) := by
  refine ⟨baseInv_broke hb h, ?_, ?_, ?_, ?_⟩
  · intro l hl
    simp only [brokeSt, List.dropLast_concat] at hl
    exact hcomm l hl
  · refine iff_of_true rfl ?_
    exact ⟨brokeLog E st, by simp [brokeSt], rfl⟩
  · refine iff_of_false (by simp) ?_
    rintro ⟨l, hl, hc, _⟩
    simp only [brokeSt, List.getLast?_concat, Option.some.injEq] at hl
    subst hl
    simp [brokeLog] at hc
  · intro hfail; simp at hfail

theorem finalSpec_failed {E : Env} {tol : ℚ} {x0 : List ℚ} {mi : Int} {st : St}
    (hb : BaseInv E tol x0 st) (hcomm : ∀ l ∈ st.logs, l.ls.isSome = true)
    (h : ¬ maxAbsQ (E.grad st.x) < tol) (hd : (runLoop E mi st).desc < 0) :
    FinalSpec E tol x0
      (failedSt E mi st, ExitKind.descentFailure, some (runLoop E mi st).lastEv) := by
  refine ⟨baseInv_failed hb h hd, ?_, ?_, ?_, ?_⟩
  · intro l hl
    simp only [failedSt, List.dropLast_concat] at hl
    exact hcomm l hl
  · refine iff_of_false (by simp) ?_
    rintro ⟨l, hl, hc⟩
    simp only [failedSt, List.getLast?_concat, Option.some.injEq] at hl
    subst hl
    simp [failedLog] at hc
  · refine iff_of_true rfl ?_
    exact ⟨failedLog E mi st, by simp [failedSt], rfl, rfl⟩
  · intro _
    exact ⟨failedLog E mi st, by simp [failedSt], rfl, rfl, rfl⟩

theorem newtonLoop_spec (E : Env) (tol : ℚ) (mi : Int) (x0 : List ℚ) :
    ∀ (fuel : Nat) (st : St), BaseInv E tol x0 st →
      (∀ l ∈ st.logs, l.ls.isSome = true) →
      FinalSpec E tol x0 (newtonLoop E tol mi fuel st) := by
  intro fuel
  induction fuel with
  | zero =>
    intro st hb hcomm
    simp only [newtonLoop]
    exact finalSpec_cap hb hcomm
  | succ n ih =>
    intro st hb hcomm
    by_cases hconv : maxAbsQ (E.grad st.x) < tol
    · simp only [newtonLoop, outerStep, if_pos hconv]
      exact finalSpec_broke hb hcomm hconv
    · by_cases hdesc : (runLoop E mi st).desc < 0
      · simp only [newtonLoop, outerStep, if_neg hconv, if_pos hdesc]
        exact finalSpec_failed hb hcomm hconv hdesc
      · simp only [newtonLoop, outerStep, if_neg hconv, if_neg hdesc]
        refine ih (steppedSt E mi st) (baseInv_stepped hb hconv hdesc) ?_
        intro l hl
        simp only [steppedSt, List.mem_append, List.mem_singleton] at hl
        rcases hl with hl | rfl
        · exact hcomm l hl
        · rfl

/-- The initial interpreter state of a `newton_cg` call. -/
def initSt (x0 g0 : List ℚ) : St := ⟨x0, g0, 0, 0, [], [], none, []⟩

theorem newton_cg_finalSpec (E : Env) (x0 g0 : List ℚ) (tol : ℚ) (maxiter maxinner : Int) :
    FinalSpec E tol x0 (newtonLoop E tol maxinner maxiter.toNat (initSt x0 g0)) := by
  apply newtonLoop_spec
  · exact ⟨rfl, rfl, rfl, by simp [initSt], by simp [initSt], by simp [initSt]⟩
  · simp [initSt]

theorem newton_cg_proj (E : Env) (x0 g0 : List ℚ) (tol : ℚ) (maxiter maxinner : Int) :
    newton_cg E x0 g0 tol maxiter maxinner =
      ⟨(newtonLoop E tol maxinner maxiter.toNat (initSt x0 g0)).2.2,
       (newtonLoop E tol maxinner maxiter.toNat (initSt x0 g0)).1.curIterId,
       (newtonLoop E tol maxinner maxiter.toNat (initSt x0 g0)).1.innerSum,
       (newtonLoop E tol maxinner maxiter.toNat (initSt x0 g0)).1.x,
       (newtonLoop E tol maxinner maxiter.toNat (initSt x0 g0)).1.gradBuf,
       (newtonLoop E tol maxinner maxiter.toNat (initSt x0 g0)).1.trace,
       (newtonLoop E tol maxinner maxiter.toNat (initSt x0 g0)).1.logs,
       (newtonLoop E tol maxinner maxiter.toNat (initSt x0 g0)).2.1⟩ := rfl

theorem l1normQ_nonneg (xs : List ℚ) : 0 ≤ l1normQ xs := by
  apply List.sum_nonneg
  intro v hv
  simp only [List.mem_map] at hv
  obtain ⟨w, _, rfl⟩ := hv
  exact abs_nonneg w

theorem newton_cg_conv1 (E : Env) (x0 g0 : List ℚ) (tol : ℚ) (maxiter maxinner : Int)
    (hmi : 1 ≤ maxiter) (hconv : maxAbsQ (E.grad x0) < tol) :
    newton_cg E x0 g0 tol maxiter maxinner =
      ⟨none, 1, 0, x0, E.grad x0, preTrace (initSt x0 g0),
        [brokeLog E (initSt x0 g0)], ExitKind.converged⟩ := by
  have h1 : 1 ≤ maxiter.toNat := by omega
  obtain ⟨k, hk⟩ : ∃ k, maxiter.toNat = k + 1 := ⟨maxiter.toNat - 1, by omega⟩
  have hconv0 : maxAbsQ (E.grad (initSt x0 g0).x) < tol := hconv
  rw [newton_cg_proj, hk]
  simp [newtonLoop, outerStep, brokeSt, initSt, hconv]

theorem newton_cg_noiter (E : Env) (x0 g0 : List ℚ) (tol : ℚ) (maxiter maxinner : Int)
    (hmi : maxiter ≤ 0) :
    newton_cg E x0 g0 tol maxiter maxinner =
      ⟨none, 0, 0, x0, g0, [], [], ExitKind.iterCap⟩ := by
  have h0 : maxiter.toNat = 0 := by omega
  rw [newton_cg_proj, h0]
  simp [newtonLoop, initSt]

/-!  Concrete environments for counterexamples and witnesses. -/

/-- Concrete environment whose CG oracle returns the zero direction with 3
inner iterations at every attempt, so the descent scalar is exactly 0. -/
def envZeroDesc : Env := ⟨fun _ => [1], fun v => v, fun _ _ _ => ([0], 3), fun _ _ _ _ => 1⟩

/-- Concrete environment whose CG oracle always returns direction `[1]`
against the negated gradient `[-1]`, so `desc = -1 < 0` at every attempt:
negative curvature everywhere, forcing descent-direction failure. -/
def envNegCurv : Env := ⟨fun _ => [1], fun v => v, fun _ _ _ => ([1], 1), fun _ _ _ _ => 1⟩

/-- Concrete environment with a committing run: CG returns `[-1]` (so
`desc = 1 > 0`) and the line search accepts step `1/2`. -/
def envCommit : Env := ⟨fun _ => [1], fun v => v, fun _ _ _ => ([-1], 2), fun _ _ _ _ => 1 / 2⟩

/-- Concrete environment already converged at the initial point: the gradient
is constantly `[0]`. -/
def envConv : Env := ⟨fun _ => [0], fun v => v, fun _ _ _ => ([0], 0), fun _ _ _ _ => 1⟩

/-- The single iteration log of `newton_cg envZeroDesc [1] [] (1/2) 1 5`. -/
def lgZero : IterLog :=
  ⟨1, [1], 1, 1, false, [⟨1 / 2, 3, 0⟩], some ⟨1, 1 / 10000, 1, [0], 0, [1]⟩, [-1]⟩

/-- The single iteration log of `newton_cg envNegCurv [1] [] (1/2) 3 5`. -/
def lgNeg : IterLog :=
  ⟨1, [1], 1, 1, false, (List.range 10).map (fun k => ⟨1 / 2 / 10 ^ k, 1, -1⟩), none, [-1]⟩

/-!  Claims. -/

/-- C3: for every `newton_cg` run, the solver stops successfully exactly when
`grad_max_abs < tol`: the run exits with the convergence signal iff the last
logged outer iteration satisfied `grad_max_abs < tol`, and no earlier outer
iteration ever satisfied it — there is no function-value-based or
update-norm-based stopping condition. -/
theorem c3_sole_convergence_criterion (E : Env) (x0 g0 : List ℚ) (tol : ℚ)
    (maxiter maxinner : Int) :
    ((newton_cg E x0 g0 tol maxiter maxinner).exit = ExitKind.converged ↔
      ∃ l, (newton_cg E x0 g0 tol maxiter maxinner).logs.getLast? = some l ∧
        l.gradMaxAbs < tol) ∧
    ∀ l ∈ (newton_cg E x0 g0 tol maxiter maxinner).logs.dropLast,
      ¬ l.gradMaxAbs < tol := by
  have hfs := newton_cg_finalSpec E x0 g0 tol maxiter maxinner
  constructor
  · constructor
    · intro hexit
      obtain ⟨l, hl, hc⟩ := hfs.convIff.mp hexit
      refine ⟨l, hl, ?_⟩
      have hg := hfs.base.good l (List.mem_of_mem_getLast? hl)
      have hdec : decide (l.gradMaxAbs < tol) = true := by rw [← hg.conv]; exact hc
      exact of_decide_eq_true hdec
    · rintro ⟨l, hl, hlt⟩
      apply hfs.convIff.mpr
      refine ⟨l, hl, ?_⟩
      rw [(hfs.base.good l (List.mem_of_mem_getLast? hl)).conv]
      exact decide_eq_true hlt
  · intro l hl
    have hcomm := hfs.dropComm l hl
    have hg := hfs.base.good l (List.dropLast_subset _ hl)
    have hfalse := hg.notConv hcomm
    have hdec : decide (l.gradMaxAbs < tol) = false := by rw [← hg.conv]; exact hfalse
    exact of_decide_eq_false hdec

/-- Witness for C3: a run converged at the first iterate exits with the
convergence signal. -/
theorem c3_witness : (newton_cg envConv [1] [] 1 2 5).exit = ExitKind.converged :=
  (c3_sole_convergence_criterion envConv [1] [] 1 2 5).1.mpr
    ⟨brokeLog envConv (initSt [1] []), by decide, by decide⟩

/-- C2: whenever `newton_cg` exits with the descent-direction failure, the
final state comes from the failing outer iteration with no line search and no
commit: the returned iterate equals the iterate the failing iteration started
from, the returned `cur_iter_id` counts the failing iteration, and the
returned inner-iteration total is the sum over all logged CG attempts,
including the failed ones. -/
theorem c2_failure_partial_counts (E : Env) (x0 g0 : List ℚ) (tol : ℚ)
    (maxiter maxinner : Int)
    (hf : (newton_cg E x0 g0 tol maxiter maxinner).exit = ExitKind.descentFailure) :
    ∀ l, (newton_cg E x0 g0 tol maxiter maxinner).logs.getLast? = some l →
      l.ls = none ∧ l.converged = false ∧
      (newton_cg E x0 g0 tol maxiter maxinner).x = l.xBefore ∧
      (newton_cg E x0 g0 tol maxiter maxinner).outerIters = l.iterId ∧
      (newton_cg E x0 g0 tol maxiter maxinner).innerIters =
        innerTotal (newton_cg E x0 g0 tol maxiter maxinner).logs := by
  have hfs := newton_cg_finalSpec E x0 g0 tol maxiter maxinner
  intro l hl
  obtain ⟨l1, hl1, hc1, hnone1⟩ := hfs.failIff.mp hf
  obtain ⟨l2, hl2, hx2, _, hid2⟩ := hfs.failState hf
  have he1 : l1 = l := by
    have := hl1.symm.trans hl
    exact Option.some.inj this
  have he2 : l2 = l := by
    have := hl2.symm.trans hl
    exact Option.some.inj this
  subst he1
  subst he2
  exact ⟨hnone1, hc1, hx2, hid2, hfs.base.inner⟩

/-- Witness for C2: the all-negative-curvature run fails with the iterate
unchanged, one outer iteration counted and ten inner iterations recorded. -/
theorem c2_witness :
    lgNeg.ls = none ∧ lgNeg.converged = false ∧
    (newton_cg envNegCurv [1] [] (1 / 2) 3 5).x = lgNeg.xBefore ∧
    (newton_cg envNegCurv [1] [] (1 / 2) 3 5).outerIters = lgNeg.iterId ∧
    (newton_cg envNegCurv [1] [] (1 / 2) 3 5).innerIters =
      innerTotal (newton_cg envNegCurv [1] [] (1 / 2) 3 5).logs :=
  c2_failure_partial_counts envNegCurv [1] [] (1 / 2) 3 5 (by decide) lgNeg (by decide)

/-- C7: in every `newton_cg` run, the iterate buffer is written only by the
commit copy at the end of an accepted outer iteration, and at every exit the
iterate buffer holds the last committed point (the initial point if no
iteration committed). -/
theorem c7_iterate_written_only_by_commit (E : Env) (x0 g0 : List ℚ) (tol : ℚ)
    (maxiter maxinner : Int) :
    (∀ op ∈ (newton_cg E x0 g0 tol maxiter maxinner).trace,
      Buf.x ∈ op.writes → op.kind = OpKind.copyCommit) ∧
    (newton_cg E x0 g0 tol maxiter maxinner).x =
      lastCommittedX x0 (newton_cg E x0 g0 tol maxiter maxinner).logs := by
  have hfs := newton_cg_finalSpec E x0 g0 tol maxiter maxinner
  exact ⟨hfs.base.trX, hfs.base.xeq⟩

/-- Witness for C7: in the committing run, the final op writes the iterate
and is the commit copy, and the returned iterate is the committed point. -/
theorem c7_witness :
    (⟨OpKind.copyCommit, [Buf.buf2], [Buf.x], []⟩ : Op).kind = OpKind.copyCommit ∧
    (newton_cg envCommit [1] [] (1 / 2) 1 5).x =
      lastCommittedX [1] (newton_cg envCommit [1] [] (1 / 2) 1 5).logs :=
  ⟨(c7_iterate_written_only_by_commit envCommit [1] [] (1 / 2) 1 5).1
      ⟨OpKind.copyCommit, [Buf.buf2], [Buf.x], []⟩ (by decide) (by decide),
    (c7_iterate_written_only_by_commit envCommit [1] [] (1 / 2) 1 5).2⟩

/-- C9: calling `newton_cg` with `maxiter ≤ 0` never runs the loop body: the
result is the default event, zero outer and inner iterations, the unchanged
iterate, the untouched gradient buffer, an empty op trace (in particular no
`update_x`, gradient or value call on the objective) and no iteration log. -/
theorem c9_nonpositive_maxiter (E : Env) (x0 g0 : List ℚ) (tol : ℚ)
    (maxiter maxinner : Int) (hmi : maxiter ≤ 0) :
    newton_cg E x0 g0 tol maxiter maxinner =
      ⟨none, 0, 0, x0, g0, [], [], ExitKind.iterCap⟩ :=
  newton_cg_noiter E x0 g0 tol maxiter maxinner hmi

/-- Witness for C9: a call with `maxiter = 0`. -/
theorem c9_witness :
    newton_cg envConv [1] [2] 1 0 5 = ⟨none, 0, 0, [1], [2], [], [], ExitKind.iterCap⟩ :=
  c9_nonpositive_maxiter envConv [1] [2] 1 0 5 (by decide)

/-- C10: every non-converged outer iteration leaves the objective's gradient
buffer holding the negated gradient at that iteration's point (it is negated
in place and never restored), and after a descent-direction-failure return
the buffer still holds the negated gradient of the returned iterate. -/
theorem c10_gradient_negated_in_place (E : Env) (x0 g0 : List ℚ) (tol : ℚ)
    (maxiter maxinner : Int) :
    (∀ l ∈ (newton_cg E x0 g0 tol maxiter maxinner).logs, l.converged = false →
      l.gradBufAfter = (E.grad l.xBefore).map (fun v => -v)) ∧
    ((newton_cg E x0 g0 tol maxiter maxinner).exit = ExitKind.descentFailure →
      (newton_cg E x0 g0 tol maxiter maxinner).gradBuf =
        (E.grad (newton_cg E x0 g0 tol maxiter maxinner).x).map (fun v => -v)) := by
  have hfs := newton_cg_finalSpec E x0 g0 tol maxiter maxinner
  constructor
  · intro l hl hc
    have := (hfs.base.good l hl).negGrad hc
    simpa [kernel_minus] using this
  · intro hf
    obtain ⟨l, _, hx, hg, _⟩ := hfs.failState hf
    have hx' : (newton_cg E x0 g0 tol maxiter maxinner).x = l.xBefore := hx
    rw [hx']
    simpa [kernel_minus] using hg

/-- Witness for C10: the zero-descent run negates the gradient buffer, and
the failing run returns with the buffer negated. -/
theorem c10_witness :
    lgZero.gradBufAfter = (envZeroDesc.grad lgZero.xBefore).map (fun v => -v) ∧
    (newton_cg envNegCurv [1] [] (1 / 2) 3 5).gradBuf =
      (envNegCurv.grad (newton_cg envNegCurv [1] [] (1 / 2) 3 5).x).map (fun v => -v) :=
  ⟨(c10_gradient_negated_in_place envZeroDesc [1] [] (1 / 2) 1 5).1 lgZero
      (by decide) (by decide),
    (c10_gradient_negated_in_place envNegCurv [1] [] (1 / 2) 3 5).2 (by decide)⟩

/-- Counterexample to C1 as stated: in the run `newton_cg envZeroDesc [1] []
(1/2) 1 5` the single CG attempt computes `desc = 0`, which satisfies
`desc ≤ 0`; yet the solver does not shrink `tol_k` and retry (the attempt
list has length 1 although the budget allows 10), the iteration proceeds to
the line search (`ls.isSome`), and the solve does not abort with the failure
signal — the source condition is `desc < 0`, not `desc ≤ 0`, and an attempt
with `desc = 0` proceeds. -/
theorem c1_counterexample :
    (newton_cg envZeroDesc [1] [] (1 / 2) 1 5).logs = [lgZero] ∧
    lgZero.attempts = [⟨1 / 2, 3, 0⟩] ∧
    lgZero.ls.isSome = true ∧
    (newton_cg envZeroDesc [1] [] (1 / 2) 1 5).exit ≠ ExitKind.descentFailure := by
  exact ⟨by decide, by decide, by decide, by decide⟩

/-- C1 (amended): in every non-converged outer iteration, the descent search
invokes the CG solver between 1 and 10 times; every attempt that is followed
by a retry observed `desc < 0` and the retry divides `tol_k` by 10; the
iteration proceeds to the line search exactly when the last attempt has
`desc ≥ 0`; if no line search happens then all 10 budgeted attempts ran and
every one of them had `desc < 0`; inner-iteration counts accumulate over all
logged attempts, and a last iteration ending without line search makes the
whole solve return immediately with the failure exit. -/
theorem c1_descent_retry_loop (E : Env) (x0 g0 : List ℚ) (tol : ℚ)
    (maxiter maxinner : Int) :
    (∀ l ∈ (newton_cg E x0 g0 tol maxiter maxinner).logs, l.converged = false →
      (l.attempts ≠ [] ∧ l.attempts.length ≤ 10) ∧
      (∀ i a b, l.attempts[i]? = some a → l.attempts[i + 1]? = some b →
        b.tolK = a.tolK / 10 ∧ a.desc < 0) ∧
      (∀ a, l.attempts.getLast? = some a → (l.ls.isSome = true ↔ 0 ≤ a.desc)) ∧
      (l.ls = none → l.attempts.length = 10 ∧ ∀ a ∈ l.attempts, a.desc < 0)) ∧
    ((newton_cg E x0 g0 tol maxiter maxinner).innerIters =
      innerTotal (newton_cg E x0 g0 tol maxiter maxinner).logs) ∧
    (∀ l, (newton_cg E x0 g0 tol maxiter maxinner).logs.getLast? = some l →
      l.converged = false → l.ls = none →
      (newton_cg E x0 g0 tol maxiter maxinner).exit = ExitKind.descentFailure) := by
  have hfs := newton_cg_finalSpec E x0 g0 tol maxiter maxinner
  refine ⟨?_, hfs.base.inner, ?_⟩
  · intro l hl hc
    have hg := hfs.base.good l hl
    exact ⟨⟨hg.attNe hc, hg.attLen⟩,
      fun i a b ha hb => chainFrom_consec _ _ hg.attChain i a b ha hb,
      hg.lsGate, hg.failFull hc⟩
  · intro l hl hc hnone
    exact hfs.failIff.mpr ⟨l, hl, hc, hnone⟩

/-- Witness for the amended C1: the all-negative-curvature run makes all 10
attempts, each with `desc < 0`, and the solve exits with the failure signal. -/
theorem c1_witness :
    (lgNeg.attempts ≠ [] ∧ lgNeg.attempts.length ≤ 10) ∧
    (newton_cg envNegCurv [1] [] (1 / 2) 3 5).exit = ExitKind.descentFailure :=
  ⟨((c1_descent_retry_loop envNegCurv [1] [] (1 / 2) 3 5).1 lgNeg (by decide) (by decide)).1,
    (c1_descent_retry_loop envNegCurv [1] [] (1 / 2) 3 5).2.2 lgNeg (by decide) (by decide)
      (by decide)⟩

/-- C4: with any nonnegative square root, every non-converged outer iteration
starts its descent search with the fresh inner tolerance
`tol_k = min(sqrt(grad_norm), 0.5)` (the first CG attempt uses exactly this
value), and across the retry attempts `tol_k` is divided by 10 each time and
is therefore monotonically non-increasing. -/
theorem c4_inner_tolerance (E : Env) (x0 g0 : List ℚ) (tol : ℚ)
    (maxiter maxinner : Int) (hsq : ∀ v, 0 ≤ v → 0 ≤ E.sqrtF v) :
    ∀ l ∈ (newton_cg E x0 g0 tol maxiter maxinner).logs, l.converged = false →
      l.gradNorm = l1normQ (E.grad l.xBefore) ∧
      (∀ a, l.attempts.head? = some a → a.tolK = min (E.sqrtF l.gradNorm) (1 / 2)) ∧
      (∀ i a b, l.attempts[i]? = some a → l.attempts[i + 1]? = some b →
        b.tolK = a.tolK / 10 ∧ b.tolK ≤ a.tolK) := by
  have hfs := newton_cg_finalSpec E x0 g0 tol maxiter maxinner
  intro l hl _
  have hg := hfs.base.good l hl
  have ht0 : 0 ≤ min (E.sqrtF l.gradNorm) (1 / 2) := by
    refine le_min ?_ (by norm_num)
    rw [hg.gnorm]
    exact hsq _ (l1normQ_nonneg _)
  refine ⟨hg.gnorm, fun a ha => chainFrom_head _ _ hg.attChain a ha, ?_⟩
  intro i a b ha hb
  obtain ⟨hdiv, _⟩ := chainFrom_consec _ _ hg.attChain i a b ha hb
  have hA : 0 ≤ a.tolK :=
    chainFrom_nonneg _ _ hg.attChain ht0 a (List.getElem?_mem ha)
  refine ⟨hdiv, ?_⟩
  rw [hdiv]
  linarith

/-- Witness for C4: in the zero-descent run the first attempt uses
`tol_k = min(sqrt 1, 1/2) = 1/2`, and in the failing run the second attempt
uses a tenth of the first tolerance, which does not increase. -/
theorem c4_witness :
    lgZero.gradNorm = l1normQ (envZeroDesc.grad lgZero.xBefore) ∧
    (⟨1 / 2, 3, 0⟩ : Attempt).tolK = min (envZeroDesc.sqrtF lgZero.gradNorm) (1 / 2) ∧
    ((⟨1 / 20, 1, -1⟩ : Attempt).tolK = (⟨1 / 2, 1, -1⟩ : Attempt).tolK / 10 ∧
      (⟨1 / 20, 1, -1⟩ : Attempt).tolK ≤ (⟨1 / 2, 1, -1⟩ : Attempt).tolK) :=
  ⟨((c4_inner_tolerance envZeroDesc [1] [] (1 / 2) 1 5 (fun v hv => hv)) lgZero
      (by decide) (by decide)).1,
    ((c4_inner_tolerance envZeroDesc [1] [] (1 / 2) 1 5 (fun v hv => hv)) lgZero
      (by decide) (by decide)).2.1 ⟨1 / 2, 3, 0⟩ (by decide),
    ((c4_inner_tolerance envNegCurv [1] [] (1 / 2) 3 5 (fun v hv => hv)) lgNeg
      (by decide) (by decide)).2.2 0 ⟨1 / 2, 1, -1⟩ ⟨1 / 20, 1, -1⟩ (by decide) (by decide)⟩

/-- C5: when the outer budget admits at least one iteration and the initial
gradient already satisfies `grad_max_abs < tol`, `newton_cg` terminates
immediately: the convergence exit is taken, the returned `cur_iter_id` is 1
(the counter is incremented before the check), no inner iteration is spent,
the iterate is returned unchanged, and no CG solve or line search is ever
issued. -/
theorem c5_immediate_termination (E : Env) (x0 g0 : List ℚ) (tol : ℚ)
    (maxiter maxinner : Int) (hmi : 1 ≤ maxiter)
    (hconv : maxAbsQ (E.grad x0) < tol) :
    (newton_cg E x0 g0 tol maxiter maxinner).exit = ExitKind.converged ∧
    (newton_cg E x0 g0 tol maxiter maxinner).outerIters = 1 ∧
    (newton_cg E x0 g0 tol maxiter maxinner).innerIters = 0 ∧
    (newton_cg E x0 g0 tol maxiter maxinner).x = x0 ∧
    ∀ op ∈ (newton_cg E x0 g0 tol maxiter maxinner).trace,
      op.kind ≠ OpKind.cgSolve ∧ op.kind ≠ OpKind.lineSearch := by
  rw [newton_cg_conv1 E x0 g0 tol maxiter maxinner hmi hconv]
  refine ⟨rfl, rfl, rfl, rfl, ?_⟩
  intro op hop
  simp only [preTrace, initSt, List.nil_append, List.mem_append, List.mem_singleton] at hop
  rcases hop with (rfl | rfl) | rfl
  · exact ⟨by simp, by simp⟩
  · exact ⟨by simp, by simp⟩
  · exact ⟨by simp, by simp⟩

/-- Witness for C5: the already-converged run. -/
theorem c5_witness :
    (newton_cg envConv [1] [] 1 2 5).exit = ExitKind.converged ∧
    (newton_cg envConv [1] [] 1 2 5).outerIters = 1 ∧
    (newton_cg envConv [1] [] 1 2 5).innerIters = 0 ∧
    (newton_cg envConv [1] [] 1 2 5).x = [1] := by
  have h := c5_immediate_termination envConv [1] [] 1 2 5 (by decide) (by decide)
  exact ⟨h.1, h.2.1, h.2.2.1, h.2.2.2.1⟩

/-- C6: in every `newton_cg` run, every accepted outer iteration invoked the
backtracking line search with initial step 1 and sufficient-decrease constant
`1e-4`; the recorded update norm equals `sqrt(<direction, direction>)` times
the accepted step; the committed point is `x + alpha * direction`, so the
returned iterate — the fold of the committed points — and the iteration
counters are determined without reference to the update norm, which is
diagnostic only. -/
theorem c6_line_search_and_update_norm (E : Env) (x0 g0 : List ℚ) (tol : ℚ)
    (maxiter maxinner : Int) :
    (∀ l ∈ (newton_cg E x0 g0 tol maxiter maxinner).logs, ∀ c, l.ls = some c →
      c.step0 = 1 ∧ c.cdec = 1 / 10000 ∧
      c.updateNorm = E.sqrtF (dotQ c.dir c.dir) * c.alpha ∧
      c.xAfter = axpyQ c.alpha l.xBefore c.dir) ∧
    (newton_cg E x0 g0 tol maxiter maxinner).x =
      lastCommittedX x0 (newton_cg E x0 g0 tol maxiter maxinner).logs ∧
    (newton_cg E x0 g0 tol maxiter maxinner).innerIters =
      innerTotal (newton_cg E x0 g0 tol maxiter maxinner).logs := by
  have hfs := newton_cg_finalSpec E x0 g0 tol maxiter maxinner
  exact ⟨fun l hl c hc => (hfs.base.good l hl).lsSpec c hc, hfs.base.xeq, hfs.base.inner⟩

/-- Witness for C6: the line-search record of the zero-descent run. -/
theorem c6_witness :
    (⟨1, 1 / 10000, 1, [0], 0, [1]⟩ : LSInfo).step0 = 1 ∧
    (⟨1, 1 / 10000, 1, [0], 0, [1]⟩ : LSInfo).cdec = 1 / 10000 ∧
    (⟨1, 1 / 10000, 1, [0], 0, [1]⟩ : LSInfo).updateNorm =
      envZeroDesc.sqrtF (dotQ [0] [0]) * 1 ∧
    (⟨1, 1 / 10000, 1, [0], 0, [1]⟩ : LSInfo).xAfter = axpyQ 1 lgZero.xBefore [0] :=
  (c6_line_search_and_update_norm envZeroDesc [1] [] (1 / 2) 1 5).1 lgZero (by decide)
    ⟨1, 1 / 10000, 1, [0], 0, [1]⟩ (by decide)

/-- C8 (divergence witness): in the committing run the issued op sequence is
the expected one, the line search is op 7 and writes `buffer2`, but the
commit copy of the line-search result into `x` — the last op — is issued
with an empty dependency list: it does not declare the line-search write (nor
any producing operation) as a dependency, against the stated ordering
guarantee. -/
theorem c8_commit_copy_empty_deps :
    (newton_cg envCommit [1] [] (1 / 2) 1 5).trace.map (fun op => op.kind) =
      [OpKind.updateX, OpKind.l1norm, OpKind.maxabs, OpKind.negateGrad, OpKind.fillDir,
        OpKind.cgSolve, OpKind.dotDesc, OpKind.lineSearch, OpKind.dotUN,
        OpKind.copyCommit] ∧
    (newton_cg envCommit [1] [] (1 / 2) 1 5).trace[7]? =
      some ⟨OpKind.lineSearch, [Buf.x, Buf.dir], [Buf.buf2], [6]⟩ ∧
    (newton_cg envCommit [1] [] (1 / 2) 1 5).trace.getLast? =
      some ⟨OpKind.copyCommit, [Buf.buf2], [Buf.x], []⟩ := by
  exact ⟨by decide, by decide, by decide⟩
